import Mathlib

/-!
Verification of `png_color_converter.py` (repository `png_tools`).

The development shallowly embeds the program:

* `parse_color` embeds the color-string parser (source lines 13-41).
* `Color`, `Pixel` and `SrcImage` embed the data model: 8-bit RGB triples,
  RGBA pixels, and loaded images that may or may not carry an alpha channel.
* `close`, `maskAt` and `recolor` embed the pixel recolor engine
  (source lines 67-87): per-pixel closeness under the selected metric,
  the mask `close AND alpha > 0`, and the masked RGB overwrite.
* `convert_png_color` embeds the whole conversion entry point
  (source lines 44-91) over an explicit association-list file system;
  saving a file prepends to the list, so a later lookup sees the new
  content (an overwriting write).

Machine floating point is modelled by exact arithmetic: tolerances are
rationals and the euclidean test is kept in its decidable squared rational
form, proved equal to the source's real square-root formula by
`euclideanClose_iff_sqrt`.
-/

deriving instance DecidableEq for Except

namespace PngTools

/-- An RGB color triple; the program represents colors as integer triples
with each component in `[0, 255]`. -/
structure Color where
  r : ℕ
  g : ℕ
  b : ℕ
  deriving DecidableEq, Repr

/-- An RGBA pixel, four 8-bit channels, as in the numpy array `arr`
obtained from the loaded image (source line 65). -/
structure Pixel where
  r : ℕ
  g : ℕ
  b : ℕ
  a : ℕ
  deriving DecidableEq, Repr

/-- All channels of a color are 8-bit bytes. -/
def Color.valid (c : Color) : Prop :=
  c.r ≤ 255 ∧ c.g ≤ 255 ∧ c.b ≤ 255

/-- All channels of a pixel are 8-bit bytes. -/
def Pixel.valid (p : Pixel) : Prop :=
  p.r ≤ 255 ∧ p.g ≤ 255 ∧ p.b ≤ 255 ∧ p.a ≤ 255

/-- The RGB part of a pixel. -/
def rgbOf (p : Pixel) : Color :=
  ⟨p.r, p.g, p.b⟩

/-- Squared euclidean distance between two colors, the exact value of
`dist ** 2` where `dist = np.linalg.norm(rgb - src)` (source line 74):
the per-channel signed differences are squared and summed. -/
def distSq (c src : Color) : ℤ :=
  ((c.r : ℤ) - src.r) ^ 2 + ((c.g : ℤ) - src.g) ^ 2 + ((c.b : ℤ) - src.b) ^ 2

/-- Source lines 74-77: `dist = sqrt(diff_r^2 + diff_g^2 + diff_b^2)`,
`norm = dist / (sqrt(3) * 255)` and the pixel is close when
`norm <= tolerance`. Stated in the equivalent squared rational form so
that the test is decidable; the theorem `euclideanClose_iff_sqrt` proves
it equal to the source's real square-root formula. -/
def euclideanClose (src : Color) (tol : ℚ) (c : Color) : Prop :=
  0 ≤ tol ∧ (distSq c src : ℚ) ≤ tol ^ 2 * (3 * 255 ^ 2)

/-- Source lines 78-80: `thr = tolerance * 255` and the pixel is close when
every per-channel absolute difference is at most `thr`. -/
def channelClose (src : Color) (tol : ℚ) (c : Color) : Prop :=
  |(c.r : ℚ) - src.r| ≤ tol * 255 ∧ |(c.g : ℚ) - src.g| ≤ tol * 255 ∧
    |(c.b : ℚ) - src.b| ≤ tol * 255

instance euclideanClose.instDecidable (src : Color) (tol : ℚ) (c : Color) :
    Decidable (euclideanClose src tol c) := by
  unfold euclideanClose
  infer_instance

instance channelClose.instDecidable (src : Color) (tol : ℚ) (c : Color) :
    Decidable (channelClose src tol c) := by
  unfold channelClose
  infer_instance

/-- The metric selector, a closed two-variant enumeration
(source lines 73-82 dispatch on it). -/
inductive Metric where
  | euclidean
  | channel
  deriving DecidableEq, Repr

/-- Per-pixel closeness to the source color under the selected metric. -/
def close : Metric → Color → ℚ → Color → Prop
  | .euclidean, src, tol, c => euclideanClose src tol c
  | .channel, src, tol, c => channelClose src tol c

instance close.instDecidable (m : Metric) (src : Color) (tol : ℚ) (c : Color) :
    Decidable (close m src tol c) :=
  match m with
  | .euclidean => euclideanClose.instDecidable src tol c
  | .channel => channelClose.instDecidable src tol c

/-- Source lines 84-85: the final mask is closeness AND `alpha > 0`. -/
def maskAt (m : Metric) (src : Color) (tol : ℚ) (p : Pixel) : Prop :=
  close m src tol (rgbOf p) ∧ 0 < p.a

instance maskAt.instDecidable (m : Metric) (src : Color) (tol : ℚ) (p : Pixel) :
    Decidable (maskAt m src tol p) := by
  unfold maskAt
  infer_instance

/-- Overwrite the RGB channels of a pixel, keeping alpha
(source line 87 writes only `arr[mask, :3]`). -/
def setRGB (p : Pixel) (tgt : Color) : Pixel :=
  ⟨tgt.r, tgt.g, tgt.b, p.a⟩

/-- One pixel of the masked assignment `arr[mask, :3] = target_color`
(source line 87): a masked pixel gets the target RGB, every other pixel is
unchanged. -/
def recolorPixel (src tgt : Color) (tol : ℚ) (m : Metric) (p : Pixel) : Pixel :=
  if maskAt m src tol p then setRGB p tgt else p

/-- The pixel recolor engine, source lines 67-87, written per pixel. -/
def recolor (src tgt : Color) (tol : ℚ) (m : Metric) (arr : List Pixel) : List Pixel :=
  arr.map (recolorPixel src tgt tol m)

/-- A loaded image: either it already carries an alpha channel (mode RGBA)
or it does not (mode RGB); source lines 59-63 convert everything else to
RGBA before the array is taken. -/
inductive SrcImage where
  | rgba : List Pixel → SrcImage
  | rgb : List (ℕ × ℕ × ℕ) → SrcImage
  deriving DecidableEq, Repr

/-- Normalization to four channels (source lines 60-63): an image without
alpha gets alpha 255 on every pixel. -/
def toRGBA : SrcImage → List Pixel
  | .rgba l => l
  | .rgb l => l.map fun t => ⟨t.1, t.2.1, t.2.2, 255⟩

/-! ### The color parser (source lines 13-41) -/

/-- The two failure modes of `parse_color`: the message at source lines
27-29 (wrong shape) and the messages at lines 33-35 and 38-40 (a token
that is not an integer, or an integer out of `[0, 255]`). -/
inductive ParseError where
  | invalidColorFormat
  | invalidColorRange
  deriving DecidableEq, Repr

/-- Python whitespace, as used by `str.strip` and `str.split`. -/
def pyIsSpace (c : Char) : Bool :=
  c = ' ' || c = '\t' || c = '\n' || c = '\r' || c = '\x0b' || c = '\x0c'

/-- Model of Python `str.strip()`: drop leading and trailing whitespace
(source line 14 and the `p.strip()` at line 23). -/
def pyStrip (l : List Char) : List Char :=
  ((l.dropWhile pyIsSpace).reverse.dropWhile pyIsSpace).reverse

/-- Model of Python `s.split(",")` (source line 23): split at every comma,
keeping empty pieces. -/
def splitOnComma : List Char → List (List Char)
  | [] => [[]]
  | c :: cs =>
      let r := splitOnComma cs
      if c = ',' then [] :: r
      else
        match r with
        | [] => [[c]]
        | t :: ts => (c :: t) :: ts

/-- Model of Python `s.split()` with no argument (source line 25): maximal
runs of non-whitespace characters, empty pieces discarded. -/
def splitWsAux : List Char → List Char → List (List Char)
  | [], acc => if acc.isEmpty then [] else [acc.reverse]
  | c :: cs, acc =>
      if pyIsSpace c then
        if acc.isEmpty then splitWsAux cs []
        else acc.reverse :: splitWsAux cs []
      else splitWsAux cs (c :: acc)

def splitWs (l : List Char) : List (List Char) :=
  splitWsAux l []

/-- The hexadecimal alphabet test of source line 17. -/
def isHexDigitChar (c : Char) : Bool :=
  "0123456789abcdefABCDEF".data.contains c

/-- Source line 17: the branch condition for hex parsing. -/
def isHex6 (l : List Char) : Bool :=
  l.all isHexDigitChar && l.length == 6

def hexDigitVal (c : Char) : ℕ :=
  if c.isDigit then c.toNat - '0'.toNat
  else if 'a' ≤ c ∧ c ≤ 'f' then c.toNat - 'a'.toNat + 10
  else if 'A' ≤ c ∧ c ≤ 'F' then c.toNat - 'A'.toNat + 10
  else 0

/-- `int(s[i:i+2], 16)` on two hex digits (source lines 18-20). -/
def hexByte (c1 c2 : Char) : ℕ :=
  16 * hexDigitVal c1 + hexDigitVal c2

/-- Source lines 18-21: the three bytes of a 6-hex-digit color string. -/
def hexColor : List Char → Color
  | [c1, c2, c3, c4, c5, c6] => ⟨hexByte c1 c2, hexByte c3 c4, hexByte c5 c6⟩
  | _ => ⟨0, 0, 0⟩

/-- Digits-with-underscores validation, continuing after a first digit:
Python `int()` accepts single underscores between base-10 digits. -/
def intDigitsRest : List Char → Bool
  | [] => true
  | ['_'] => false
  | '_' :: c :: cs => c.isDigit && intDigitsRest cs
  | c :: cs => c.isDigit && intDigitsRest cs

def intDigitsOk : List Char → Bool
  | [] => false
  | c :: cs => c.isDigit && intDigitsRest cs

def digitsVal (l : List Char) : ℕ :=
  l.foldl (fun acc c => 10 * acc + (c.toNat - '0'.toNat)) 0

/-- Model of Python `int(token)` for base-10 string input, as used at
source line 31: optional surrounding whitespace, an optional sign, then
ASCII digits with single underscores allowed between digits; `none` models
the `ValueError` caught at line 32. -/
def pyIntCore : List Char → Option ℤ
  | '+' :: cs =>
      if intDigitsOk cs then some ((digitsVal (cs.filter fun c => c ≠ '_') : ℕ) : ℤ) else none
  | '-' :: cs =>
      if intDigitsOk cs then some (-((digitsVal (cs.filter fun c => c ≠ '_') : ℕ) : ℤ)) else none
  | cs =>
      if intDigitsOk cs then some ((digitsVal (cs.filter fun c => c ≠ '_') : ℕ) : ℤ) else none

def pyInt? (l : List Char) : Option ℤ :=
  pyIntCore (pyStrip l)

/-- Source lines 22-25: split on commas when a comma is present, else on
whitespace. -/
def tokensOf (s : List Char) : List (List Char) :=
  if s.contains ',' then (splitOnComma s).map pyStrip
  else splitWs s

/-- Source lines 26-41: require exactly three tokens, parse each as a
base-10 integer, validate the range `[0, 255]`. -/
def parseTokens (parts : List (List Char)) : Except ParseError Color :=
  match parts with
  | [p0, p1, p2] =>
      match pyInt? p0, pyInt? p1, pyInt? p2 with
      | some r, some g, some b =>
          if r < 0 ∨ 255 < r then .error .invalidColorRange
          else if g < 0 ∨ 255 < g then .error .invalidColorRange
          else if b < 0 ∨ 255 < b then .error .invalidColorRange
          else .ok ⟨r.toNat, g.toNat, b.toNat⟩
      | _, _, _ => .error .invalidColorRange
  | _ => .error .invalidColorFormat

/-- The string after stripping and removal of one leading hash
(source lines 14-16). -/
def prepColor (color_str : String) : List Char :=
  let s0 := pyStrip color_str.data
  match s0 with
  | '#' :: rest => rest
  | _ => s0

/-- The color parser, source lines 13-41. -/
def parse_color (color_str : String) : Except ParseError Color :=
  let s := prepColor color_str
  if isHex6 s then .ok (hexColor s)
  else parseTokens (tokensOf s)

/-! ### The conversion entry point (source lines 44-91) -/

/-- Source lines 9-10. -/
def DEFAULT_SOURCE : Color := ⟨0, 0, 0⟩

def DEFAULT_TARGET : Color := ⟨6, 145, 15⟩

/-- The two errors `convert_png_color` itself raises: source line 53 and
source line 82. -/
inductive ConvError where
  | fileNotFound
  | unsupportedMetric
  deriving DecidableEq, Repr

/-- A file system: an association list from paths to decoded images.
`List.lookup` finds the most recent binding, so prepending a pair is an
overwriting write. -/
abbrev FileSys : Type := List (String × SrcImage)

/-- `os.path.isfile` / `Image.open` are modelled by lookup in the
association list. -/
def readFile (fs : FileSys) (p : String) : Option SrcImage :=
  List.lookup p fs

/-- `out.save(output_path)` (source line 90): an overwriting write. -/
def writeFile (fs : FileSys) (p : String) (im : SrcImage) : FileSys :=
  (p, im) :: fs

/-- Python `str.rfind` on a single character: index of the last
occurrence, `-1` when absent. -/
def rfindAux (c : Char) : List Char → ℤ → ℤ → ℤ
  | [], _, best => best
  | x :: xs, i, best => rfindAux c xs (i + 1) (if x = c then i else best)

def rfind (l : List Char) (c : Char) : ℤ :=
  rfindAux c l 0 (-1)

/-- Model of `os.path.splitext` (POSIX): split at the last dot of the
final path component, unless every character of that component up to the
dot is itself a dot. -/
def splitext (p : String) : String × String :=
  let l := p.data
  let sepIndex := rfind l '/'
  let dotIndex := rfind l '.'
  if sepIndex < dotIndex then
    if ((l.take dotIndex.toNat).drop (sepIndex + 1).toNat).any (fun c => c ≠ '.') then
      (String.mk (l.take dotIndex.toNat), String.mk (l.drop dotIndex.toNat))
    else (p, "")
  else (p, "")

/-- Source lines 73-82: the dispatch on the metric string; any string
other than the two known ones raises (line 82). -/
def metricOfString (s : String) : Option Metric :=
  if s = "euclidean" then some .euclidean
  else if s = "channel" then some .channel
  else none

/-- The conversion entry point, source lines 44-91, over the explicit
file system. The returned pair is the file system after the call and
either the error raised or the returned output path. -/
def convert_png_color (fs : FileSys) (input_path : String)
    (output_path : Option String) (source_color target_color : Color)
    (tolerance : ℚ) (metric : String) :
    FileSys × Except ConvError String :=
  match readFile fs input_path with
  | none => (fs, .error .fileNotFound)
  | some im =>
      let outPath :=
        match output_path with
        | some p => p
        | none => (splitext input_path).1 ++ "_converted.png"
      let arr := toRGBA im
      match metricOfString metric with
      | none => (fs, .error .unsupportedMetric)
      | some m =>
          let res := recolor source_color target_color tolerance m arr
          (writeFile fs outPath (.rgba res), .ok outPath)

/-! ### Helper lemmas about the metrics and the engine -/

theorem distSq_nonneg (c src : Color) : 0 ≤ distSq c src := by
  unfold distSq
  positivity

theorem euclideanClose_iff (src : Color) (tol : ℚ) (c : Color) :
    euclideanClose src tol c ↔
      0 ≤ tol ∧ (distSq c src : ℚ) ≤ tol ^ 2 * (3 * 255 ^ 2) :=
  Iff.rfl

/-- The embedded euclidean test agrees with the formula the source
computes (lines 74-77): the real square root of the squared distance,
normalized by `sqrt(3) * 255`, is at most the tolerance. -/
theorem euclideanClose_iff_sqrt (src : Color) (tol : ℚ) (c : Color) :
    euclideanClose src tol c ↔
      Real.sqrt ((distSq c src : ℤ) : ℝ) / (Real.sqrt 3 * 255) ≤ (tol : ℝ) := by
  have h3 : (0 : ℝ) < Real.sqrt 3 * 255 := by positivity
  have hsq : Real.sqrt 3 ^ 2 = 3 := Real.sq_sqrt (by norm_num)
  have key : ((tol : ℝ) * (Real.sqrt 3 * 255)) ^ 2 = (tol : ℝ) ^ 2 * (3 * 255 ^ 2) := by
    rw [mul_pow, mul_pow, hsq]
  have hcast : (((distSq c src : ℤ) : ℝ) ≤ (tol : ℝ) ^ 2 * (3 * 255 ^ 2)) ↔
      ((distSq c src : ℚ) ≤ tol ^ 2 * (3 * 255 ^ 2)) := by
    exact_mod_cast Iff.rfl
  unfold euclideanClose
  rw [div_le_iff₀ h3, Real.sqrt_le_iff]
  constructor
  · rintro ⟨ht, hb⟩
    have ht' : (0 : ℝ) ≤ (tol : ℝ) := by exact_mod_cast ht
    refine ⟨mul_nonneg ht' h3.le, ?_⟩
    rw [key]
    exact hcast.mpr hb
  · rintro ⟨h1, h2⟩
    have ht : 0 ≤ tol := by
      by_contra hneg
      push_neg at hneg
      have hlt : (tol : ℝ) < 0 := by exact_mod_cast hneg
      nlinarith
    rw [key] at h2
    exact ⟨ht, hcast.mp h2⟩

theorem distSq_eq_zero_iff (c src : Color) : distSq c src = 0 ↔ c = src := by
  obtain ⟨cr, cg, cb⟩ := c
  obtain ⟨sr, sg, sb⟩ := src
  unfold distSq
  simp only [Color.mk.injEq]
  constructor
  · intro h
    have h1 : ((cr : ℤ) - sr) ^ 2 = 0 := by
      nlinarith [sq_nonneg ((cr : ℤ) - sr), sq_nonneg ((cg : ℤ) - sg), sq_nonneg ((cb : ℤ) - sb)]
    have h2 : ((cg : ℤ) - sg) ^ 2 = 0 := by
      nlinarith [sq_nonneg ((cr : ℤ) - sr), sq_nonneg ((cg : ℤ) - sg), sq_nonneg ((cb : ℤ) - sb)]
    have h3 : ((cb : ℤ) - sb) ^ 2 = 0 := by
      nlinarith [sq_nonneg ((cr : ℤ) - sr), sq_nonneg ((cg : ℤ) - sg), sq_nonneg ((cb : ℤ) - sb)]
    have e1 : (cr : ℤ) = sr := by
      have := sub_eq_zero.mp (pow_eq_zero_iff two_ne_zero |>.mp h1)
      exact this
    have e2 : (cg : ℤ) = sg := sub_eq_zero.mp (pow_eq_zero_iff two_ne_zero |>.mp h2)
    have e3 : (cb : ℤ) = sb := sub_eq_zero.mp (pow_eq_zero_iff two_ne_zero |>.mp h3)
    exact ⟨by exact_mod_cast e1, by exact_mod_cast e2, by exact_mod_cast e3⟩
  · rintro ⟨rfl, rfl, rfl⟩
    simp

theorem close_euclidean_def (src : Color) (tol : ℚ) (c : Color) :
    close .euclidean src tol c = euclideanClose src tol c := rfl

theorem close_channel_def (src : Color) (tol : ℚ) (c : Color) :
    close .channel src tol c = channelClose src tol c := rfl

/-- At tolerance `0`, both metrics accept exactly the source color. -/
theorem close_zero_iff (m : Metric) (src c : Color) :
    close m src 0 c ↔ c = src := by
  cases m with
  | euclidean =>
      rw [close_euclidean_def, euclideanClose_iff]
      have hnn := distSq_nonneg c src
      constructor
      · rintro ⟨-, hb⟩
        have hb' : (distSq c src : ℚ) ≤ 0 := by simpa using hb
        have hz : distSq c src = 0 := by
          have h0 : (distSq c src : ℚ) = 0 :=
            le_antisymm hb' (by exact_mod_cast hnn)
          exact_mod_cast h0
        exact (distSq_eq_zero_iff c src).mp hz
      · intro hcs
        refine ⟨le_refl 0, ?_⟩
        rw [(distSq_eq_zero_iff c src).mpr hcs]
        simp
  | channel =>
      rw [close_channel_def]
      unfold channelClose
      obtain ⟨cr, cg, cb⟩ := c
      obtain ⟨sr, sg, sb⟩ := src
      simp only [zero_mul, abs_nonpos_iff, sub_eq_zero, Color.mk.injEq]
      constructor
      · rintro ⟨h1, h2, h3⟩
        exact ⟨by exact_mod_cast h1, by exact_mod_cast h2, by exact_mod_cast h3⟩
      · rintro ⟨rfl, rfl, rfl⟩
        exact ⟨rfl, rfl, rfl⟩

/-- Any nonnegative tolerance accepts the source color itself. -/
theorem close_self (m : Metric) (src : Color) (tol : ℚ) (h : 0 ≤ tol) :
    close m src tol src := by
  cases m with
  | euclidean =>
      rw [close_euclidean_def, euclideanClose_iff]
      refine ⟨h, ?_⟩
      rw [(distSq_eq_zero_iff src src).mpr rfl]
      positivity
  | channel =>
      rw [close_channel_def]
      refine ⟨?_, ?_, ?_⟩ <;>
        · rw [sub_self, abs_zero]
          positivity

/-- At tolerance `1`, both metrics accept every byte-valued color. -/
theorem close_one (m : Metric) (src c : Color)
    (hs : src.valid) (hc : c.valid) : close m src 1 c := by
  obtain ⟨hsr, hsg, hsb⟩ := hs
  obtain ⟨hcr, hcg, hcb⟩ := hc
  have bsr : (src.r : ℤ) ≤ 255 := by exact_mod_cast hsr
  have bsg : (src.g : ℤ) ≤ 255 := by exact_mod_cast hsg
  have bsb : (src.b : ℤ) ≤ 255 := by exact_mod_cast hsb
  have bcr : (c.r : ℤ) ≤ 255 := by exact_mod_cast hcr
  have bcg : (c.g : ℤ) ≤ 255 := by exact_mod_cast hcg
  have bcb : (c.b : ℤ) ≤ 255 := by exact_mod_cast hcb
  have znr : (0 : ℤ) ≤ (c.r : ℤ) := Int.ofNat_nonneg c.r
  have zng : (0 : ℤ) ≤ (c.g : ℤ) := Int.ofNat_nonneg c.g
  have znb : (0 : ℤ) ≤ (c.b : ℤ) := Int.ofNat_nonneg c.b
  have zsr : (0 : ℤ) ≤ (src.r : ℤ) := Int.ofNat_nonneg src.r
  have zsg : (0 : ℤ) ≤ (src.g : ℤ) := Int.ofNat_nonneg src.g
  have zsb : (0 : ℤ) ≤ (src.b : ℤ) := Int.ofNat_nonneg src.b
  cases m with
  | euclidean =>
      rw [close_euclidean_def, euclideanClose_iff]
      refine ⟨by norm_num, ?_⟩
      have hb : distSq c src ≤ 3 * 255 ^ 2 := by
        unfold distSq
        nlinarith
      calc (distSq c src : ℚ) ≤ ((3 * 255 ^ 2 : ℤ) : ℚ) := by exact_mod_cast hb
        _ = 1 ^ 2 * (3 * 255 ^ 2) := by norm_num
  | channel =>
      rw [close_channel_def]
      have q1 : (c.r : ℚ) ≤ 255 := by exact_mod_cast hcr
      have q2 : (c.g : ℚ) ≤ 255 := by exact_mod_cast hcg
      have q3 : (c.b : ℚ) ≤ 255 := by exact_mod_cast hcb
      have q4 : (src.r : ℚ) ≤ 255 := by exact_mod_cast hsr
      have q5 : (src.g : ℚ) ≤ 255 := by exact_mod_cast hsg
      have q6 : (src.b : ℚ) ≤ 255 := by exact_mod_cast hsb
      have w1 : (0 : ℚ) ≤ (c.r : ℚ) := by positivity
      have w2 : (0 : ℚ) ≤ (c.g : ℚ) := by positivity
      have w3 : (0 : ℚ) ≤ (c.b : ℚ) := by positivity
      have w4 : (0 : ℚ) ≤ (src.r : ℚ) := by positivity
      have w5 : (0 : ℚ) ≤ (src.g : ℚ) := by positivity
      have w6 : (0 : ℚ) ≤ (src.b : ℚ) := by positivity
      refine ⟨?_, ?_, ?_⟩ <;>
        · rw [abs_le]
          constructor <;> linarith

/-- Closeness is monotone in the tolerance, for both metrics. -/
theorem close_mono (m : Metric) (src c : Color) (t1 t2 : ℚ) (h12 : t1 ≤ t2) :
    close m src t1 c → close m src t2 c := by
  cases m with
  | euclidean =>
      rw [close_euclidean_def, close_euclidean_def, euclideanClose_iff, euclideanClose_iff]
      rintro ⟨h0, hb⟩
      refine ⟨le_trans h0 h12, le_trans hb ?_⟩
      have hsq : t1 ^ 2 ≤ t2 ^ 2 := by nlinarith
      nlinarith
  | channel =>
      rw [close_channel_def, close_channel_def]
      rintro ⟨h1, h2, h3⟩
      have h255 : t1 * 255 ≤ t2 * 255 := by nlinarith
      exact ⟨le_trans h1 h255, le_trans h2 h255, le_trans h3 h255⟩

theorem recolor_length (src tgt : Color) (tol : ℚ) (m : Metric) (arr : List Pixel) :
    (recolor src tgt tol m arr).length = arr.length := by
  simp [recolor]

theorem recolor_get (src tgt : Color) (tol : ℚ) (m : Metric) (arr : List Pixel)
    (i : ℕ) (h : i < arr.length) (h2 : i < (recolor src tgt tol m arr).length) :
    (recolor src tgt tol m arr).get ⟨i, h2⟩ = recolorPixel src tgt tol m (arr.get ⟨i, h⟩) := by
  simp [recolor]

/-- The token branch returns a format error exactly when the token count
is not three (source lines 26-29). -/
theorem parseTokens_format_iff (parts : List (List Char)) :
    parseTokens parts = .error .invalidColorFormat ↔ parts.length ≠ 3 := by
  rcases parts with _ | ⟨a, _ | ⟨b, _ | ⟨c, _ | ⟨d, rest⟩⟩⟩⟩
  · simp [parseTokens]
  · simp [parseTokens]
  · simp [parseTokens]
  · have hne : parseTokens [a, b, c] ≠ .error .invalidColorFormat := by
      simp only [parseTokens]
      rcases pyInt? a with _ | r <;> rcases pyInt? b with _ | g <;>
        rcases pyInt? c with _ | v <;> simp
      split_ifs <;> simp
    simp [hne]
  · simp [parseTokens]

/-- Three fully parsed tokens give a range error exactly when a value is
out of `[0, 255]` (source lines 36-40). -/
theorem parseTokens3_range (a b c : List Char) (r g v : ℤ)
    (h0 : pyInt? a = some r) (h1 : pyInt? b = some g) (h2 : pyInt? c = some v) :
    parseTokens [a, b, c] = .error .invalidColorRange ↔
      (r < 0 ∨ 255 < r) ∨ (g < 0 ∨ 255 < g) ∨ (v < 0 ∨ 255 < v) := by
  simp only [parseTokens, h0, h1, h2]
  split_ifs with hr hg hb <;> simp <;> omega

/-- The token branch returns a range error exactly when there are three
tokens and one of them is not an integer or encodes a value outside
`[0, 255]` (source lines 30-40). -/
theorem parseTokens_range_iff (parts : List (List Char)) :
    parseTokens parts = .error .invalidColorRange ↔
      ∃ p0 p1 p2, parts = [p0, p1, p2] ∧
        (pyInt? p0 = none ∨ pyInt? p1 = none ∨ pyInt? p2 = none ∨
         (∃ v, pyInt? p0 = some v ∧ (v < 0 ∨ 255 < v)) ∨
         (∃ v, pyInt? p1 = some v ∧ (v < 0 ∨ 255 < v)) ∨
         (∃ v, pyInt? p2 = some v ∧ (v < 0 ∨ 255 < v))) := by
  rcases parts with _ | ⟨a, _ | ⟨b, _ | ⟨c, _ | ⟨d, rest⟩⟩⟩⟩
  · simp [parseTokens]
  · simp [parseTokens]
  · simp [parseTokens]
  · constructor
    · intro h
      refine ⟨a, b, c, rfl, ?_⟩
      rcases h0 : pyInt? a with _ | r
      · exact Or.inl rfl
      rcases h1 : pyInt? b with _ | g
      · exact Or.inr (Or.inl rfl)
      rcases h2 : pyInt? c with _ | v
      · exact Or.inr (Or.inr (Or.inl rfl))
      rcases (parseTokens3_range a b c r g v h0 h1 h2).mp h with hh | hh | hh
      · exact Or.inr (Or.inr (Or.inr (Or.inl ⟨r, rfl, hh⟩)))
      · exact Or.inr (Or.inr (Or.inr (Or.inr (Or.inl ⟨g, rfl, hh⟩))))
      · exact Or.inr (Or.inr (Or.inr (Or.inr (Or.inr ⟨v, rfl, hh⟩))))
    · rintro ⟨p0, p1, p2, heq, hd⟩
      obtain ⟨he1, he2, he3⟩ : a = p0 ∧ b = p1 ∧ c = p2 := by
        simpa using heq
      subst he1
      subst he2
      subst he3
      rcases hd with h | h | h | ⟨w, hw, hwv⟩ | ⟨w, hw, hwv⟩ | ⟨w, hw, hwv⟩
      · simp [parseTokens, h]
      · rcases hq : pyInt? a with _ | r <;> simp [parseTokens, hq, h]
      · rcases hq : pyInt? a with _ | r <;> rcases hq2 : pyInt? b with _ | g <;>
          simp [parseTokens, hq, hq2, h]
      · rcases hq2 : pyInt? b with _ | g
        · simp [parseTokens, hw, hq2]
        rcases hq3 : pyInt? c with _ | v
        · simp [parseTokens, hw, hq2, hq3]
        rw [parseTokens3_range a b c w g v hw hq2 hq3]
        exact Or.inl hwv
      · rcases hq : pyInt? a with _ | r
        · simp [parseTokens, hq]
        rcases hq3 : pyInt? c with _ | v
        · simp [parseTokens, hq, hw, hq3]
        rw [parseTokens3_range a b c r w v hq hw hq3]
        exact Or.inr (Or.inl hwv)
      · rcases hq : pyInt? a with _ | r
        · simp [parseTokens, hq]
        rcases hq2 : pyInt? b with _ | g
        · simp [parseTokens, hq, hq2]
        rw [parseTokens3_range a b c r g w hq hq2 hw]
        exact Or.inr (Or.inr hwv)
  · simp [parseTokens]

/-- A masked pixel keeps the stated idempotence pixelwise: recoloring an
already recolored pixel changes nothing when the target color itself is
not close to the source. -/
theorem recolorPixel_idem (src tgt : Color) (tol : ℚ) (m : Metric) (p : Pixel)
    (hfar : ¬ close m src tol tgt) :
    recolorPixel src tgt tol m (recolorPixel src tgt tol m p) =
      recolorPixel src tgt tol m p := by
  by_cases hp : maskAt m src tol p
  · have h1 : recolorPixel src tgt tol m p = setRGB p tgt := if_pos hp
    rw [h1]
    have h2 : ¬ maskAt m src tol (setRGB p tgt) := fun hm => hfar hm.1
    exact if_neg h2
  · have h1 : recolorPixel src tgt tol m p = p := if_neg hp
    rw [h1]
    exact h1

/-- A concrete far color: (9,0,0) is not within channel tolerance 0 of
black. -/
theorem channel_far_example : ¬ close .channel ⟨0, 0, 0⟩ 0 ⟨9, 0, 0⟩ := by
  rw [close_channel_def]
  intro h
  have h1 := h.1
  norm_num at h1

/-! ### The claims -/

/-- C1: for every input image (normalized to four channels with alpha 255
synthesized if absent), `recolor` returns an image of the same dimensions
and alpha channel, whose RGB equals the target exactly on mask-true pixels
and the original RGB elsewhere, the mask being closeness AND alpha > 0. -/
theorem C1_recolor_contract (im : SrcImage) (src tgt : Color) (tol : ℚ) (m : Metric) :
    (recolor src tgt tol m (toRGBA im)).length = (toRGBA im).length ∧
    ∀ i (h : i < (toRGBA im).length) (h2 : i < (recolor src tgt tol m (toRGBA im)).length),
      ((recolor src tgt tol m (toRGBA im)).get ⟨i, h2⟩).a = ((toRGBA im).get ⟨i, h⟩).a ∧
      (maskAt m src tol ((toRGBA im).get ⟨i, h⟩) ↔
        close m src tol (rgbOf ((toRGBA im).get ⟨i, h⟩)) ∧
          0 < ((toRGBA im).get ⟨i, h⟩).a) ∧
      (maskAt m src tol ((toRGBA im).get ⟨i, h⟩) →
        rgbOf ((recolor src tgt tol m (toRGBA im)).get ⟨i, h2⟩) = tgt) ∧
      (¬ maskAt m src tol ((toRGBA im).get ⟨i, h⟩) →
        (recolor src tgt tol m (toRGBA im)).get ⟨i, h2⟩ = (toRGBA im).get ⟨i, h⟩) := by
  refine ⟨recolor_length src tgt tol m (toRGBA im), ?_⟩
  intro i h h2
  rw [recolor_get src tgt tol m (toRGBA im) i h h2]
  refine ⟨?_, Iff.rfl, ?_, ?_⟩
  · by_cases hm : maskAt m src tol ((toRGBA im).get ⟨i, h⟩)
    · rw [show recolorPixel src tgt tol m ((toRGBA im).get ⟨i, h⟩) =
          setRGB ((toRGBA im).get ⟨i, h⟩) tgt from if_pos hm]
      rfl
    · rw [show recolorPixel src tgt tol m ((toRGBA im).get ⟨i, h⟩) =
          (toRGBA im).get ⟨i, h⟩ from if_neg hm]
  · intro hm
    rw [show recolorPixel src tgt tol m ((toRGBA im).get ⟨i, h⟩) =
        setRGB ((toRGBA im).get ⟨i, h⟩) tgt from if_pos hm]
    rfl
  · intro hm
    exact if_neg hm

/-- C1 witness: alpha is preserved on a concrete one-pixel image. -/
theorem C1_recolor_contract_witness :
    ((recolor ⟨0, 0, 0⟩ ⟨6, 145, 15⟩ 1 .channel (toRGBA (.rgba [⟨9, 9, 9, 7⟩]))).get
        ⟨0, by decide⟩).a = 7 :=
  ((C1_recolor_contract (.rgba [⟨9, 9, 9, 7⟩]) ⟨0, 0, 0⟩ ⟨6, 145, 15⟩ 1 .channel).2 0
      (by decide) (by decide)).1

/-- C2: a pixel with alpha 0 is returned byte-for-byte unchanged, for every
tolerance and both metrics; and an image without an alpha channel is
extended with alpha 255 everywhere, so it has no alpha-0 pixel. -/
theorem C2_alpha_zero_frozen (im : SrcImage) (src tgt : Color) (tol : ℚ) (m : Metric) :
    (∀ i (h : i < (toRGBA im).length) (h2 : i < (recolor src tgt tol m (toRGBA im)).length),
        ((toRGBA im).get ⟨i, h⟩).a = 0 →
        (recolor src tgt tol m (toRGBA im)).get ⟨i, h2⟩ = (toRGBA im).get ⟨i, h⟩) ∧
    ∀ l p, p ∈ toRGBA (SrcImage.rgb l) → p.a = 255 := by
  constructor
  · intro i h h2 ha
    rw [recolor_get src tgt tol m (toRGBA im) i h h2]
    refine if_neg ?_
    intro hm
    have := hm.2
    omega
  · intro l p hp
    obtain ⟨t, -, rfl⟩ := List.mem_map.mp hp
    rfl

/-- C2 witness: a fully transparent black pixel survives tolerance 1. -/
theorem C2_alpha_zero_frozen_witness :
    (recolor ⟨0, 0, 0⟩ ⟨6, 145, 15⟩ 1 .channel (toRGBA (.rgba [⟨0, 0, 0, 0⟩]))).get
        ⟨0, by decide⟩ = (⟨0, 0, 0, 0⟩ : Pixel) :=
  (C2_alpha_zero_frozen (.rgba [⟨0, 0, 0, 0⟩]) ⟨0, 0, 0⟩ ⟨6, 145, 15⟩ 1 .channel).1 0
    (by decide) (by decide) rfl

/-- C3: at tolerance 0 both metrics accept exactly the source color and the
mask selects only source-colored pixels; an opaque pixel whose RGB equals
the source is recolored to the target for every nonnegative tolerance and
both metrics; at tolerance 1 the mask is exactly opacity, for both metrics,
on byte-valued pixels. -/
theorem C3_tolerance_edges :
    (∀ src c : Color, (close .euclidean src 0 c ↔ c = src) ∧
        (close .channel src 0 c ↔ c = src)) ∧
    (∀ (m : Metric) (src : Color) (p : Pixel), maskAt m src 0 p → rgbOf p = src) ∧
    (∀ (im : SrcImage) (src tgt : Color) (tol : ℚ) (m : Metric), 0 ≤ tol →
      ∀ i (h : i < (toRGBA im).length) (h2 : i < (recolor src tgt tol m (toRGBA im)).length),
        rgbOf ((toRGBA im).get ⟨i, h⟩) = src → 0 < ((toRGBA im).get ⟨i, h⟩).a →
        rgbOf ((recolor src tgt tol m (toRGBA im)).get ⟨i, h2⟩) = tgt) ∧
    (∀ (m : Metric) (src : Color) (p : Pixel), Color.valid src → Pixel.valid p →
      (maskAt m src 1 p ↔ 0 < p.a)) := by
  refine ⟨?_, ?_, ?_, ?_⟩
  · intro src c
    exact ⟨close_zero_iff .euclidean src c, close_zero_iff .channel src c⟩
  · intro m src p hm
    exact (close_zero_iff m src (rgbOf p)).mp hm.1
  · intro im src tgt tol m htol i h h2 hrgb ha
    rw [recolor_get src tgt tol m (toRGBA im) i h h2]
    rw [show recolorPixel src tgt tol m ((toRGBA im).get ⟨i, h⟩) =
        setRGB ((toRGBA im).get ⟨i, h⟩) tgt from
      if_pos ⟨by rw [hrgb]; exact close_self m src tol htol, ha⟩]
    rfl
  · intro m src p hs hp
    constructor
    · intro hm
      exact hm.2
    · intro ha
      exact ⟨close_one m src (rgbOf p) hs ⟨hp.1, hp.2.1, hp.2.2.1⟩, ha⟩

/-- C3 witness: a source-colored opaque pixel turns target-colored at
tolerance 0 under the euclidean metric. -/
theorem C3_tolerance_edges_witness :
    rgbOf ((recolor ⟨2, 3, 4⟩ ⟨7, 8, 9⟩ 0 .euclidean (toRGBA (.rgba [⟨2, 3, 4, 9⟩]))).get
        ⟨0, by decide⟩) = ⟨7, 8, 9⟩ :=
  C3_tolerance_edges.2.2.1 (.rgba [⟨2, 3, 4, 9⟩]) ⟨2, 3, 4⟩ ⟨7, 8, 9⟩ 0 .euclidean
    (le_refl 0) 0 (by decide) (by decide) rfl (by decide)

/-- C4: mask membership is monotone in the tolerance, for a fixed pixel,
source color and metric. -/
theorem C4_mask_monotone (m : Metric) (src : Color) (t1 t2 : ℚ) (p : Pixel)
    (h12 : t1 < t2) (h1 : maskAt m src t1 p) : maskAt m src t2 p :=
  ⟨close_mono m src (rgbOf p) t1 t2 h12.le h1.1, h1.2⟩

/-- C4 witness: a pixel masked at tolerance 0 is still masked at 1. -/
theorem C4_mask_monotone_witness :
    maskAt .channel ⟨0, 0, 0⟩ 1 ⟨0, 0, 0, 3⟩ :=
  C4_mask_monotone .channel ⟨0, 0, 0⟩ 0 1 ⟨0, 0, 0, 3⟩ zero_lt_one
    ⟨close_self .channel ⟨0, 0, 0⟩ 0 (le_refl 0), by decide⟩

/-- C5: recoloring a second time with the same parameters changes nothing
when the source differs from the target and the target is farther than the
tolerance from the source. -/
theorem C5_idempotent (src tgt : Color) (tol : ℚ) (m : Metric) (arr : List Pixel)
    (_hne : src ≠ tgt) (hfar : ¬ close m src tol tgt) :
    recolor src tgt tol m (recolor src tgt tol m arr) = recolor src tgt tol m arr := by
  unfold recolor
  rw [List.map_map]
  exact List.map_congr_left fun p _ => recolorPixel_idem src tgt tol m p hfar

/-- C5 witness: one concrete double application. -/
theorem C5_idempotent_witness :
    recolor ⟨0, 0, 0⟩ ⟨9, 0, 0⟩ 0 .channel
        (recolor ⟨0, 0, 0⟩ ⟨9, 0, 0⟩ 0 .channel [⟨0, 0, 0, 255⟩]) =
      recolor ⟨0, 0, 0⟩ ⟨9, 0, 0⟩ 0 .channel [⟨0, 0, 0, 255⟩] :=
  C5_idempotent ⟨0, 0, 0⟩ ⟨9, 0, 0⟩ 0 .channel [⟨0, 0, 0, 255⟩] (by decide) channel_far_example

/-- C6 counterexample: in the stated 2x2 scenario, the pixel (6,145,15,255)
is NOT a mask match at tolerance 0.3 under the euclidean metric, contrary
to the claim: its normalized distance from (0,0,0) is about 0.330. -/
theorem C6_counterexample :
    ¬ maskAt .euclidean ⟨0, 0, 0⟩ (3 / 10) ⟨6, 145, 15, 255⟩ := by
  intro h
  have h1 := h.1
  rw [close_euclidean_def, euclideanClose_iff] at h1
  have h2 := h1.2
  norm_num [distSq, rgbOf] at h2

/-- C6 amended: the 2x2 scenario produces the stated output, the black
opaque pixel is a mask match and is recolored, but the transparent pixel
and the (6,145,15,255) pixel are both outside the mask; the latter is
unchanged because it is unmatched, not because it is a re-confirmed
match. -/
theorem C6_scenario_amended :
    recolor ⟨0, 0, 0⟩ ⟨6, 145, 15⟩ (3 / 10) .euclidean
        [⟨0, 0, 0, 255⟩, ⟨255, 255, 255, 255⟩, ⟨0, 0, 0, 0⟩, ⟨6, 145, 15, 255⟩] =
      [⟨6, 145, 15, 255⟩, ⟨255, 255, 255, 255⟩, ⟨0, 0, 0, 0⟩, ⟨6, 145, 15, 255⟩] ∧
    maskAt .euclidean ⟨0, 0, 0⟩ (3 / 10) ⟨0, 0, 0, 255⟩ ∧
    ¬ maskAt .euclidean ⟨0, 0, 0⟩ (3 / 10) ⟨0, 0, 0, 0⟩ ∧
    ¬ maskAt .euclidean ⟨0, 0, 0⟩ (3 / 10) ⟨6, 145, 15, 255⟩ := by
  have m1 : maskAt .euclidean ⟨0, 0, 0⟩ (3 / 10) ⟨0, 0, 0, 255⟩ := by
    refine ⟨?_, by norm_num⟩
    rw [close_euclidean_def, euclideanClose_iff]
    exact ⟨by norm_num, by norm_num [distSq, rgbOf]⟩
  have m2 : ¬ maskAt .euclidean ⟨0, 0, 0⟩ (3 / 10) ⟨255, 255, 255, 255⟩ := by
    intro h
    have h1 := h.1
    rw [close_euclidean_def, euclideanClose_iff] at h1
    have h2 := h1.2
    norm_num [distSq, rgbOf] at h2
  have m3 : ¬ maskAt .euclidean ⟨0, 0, 0⟩ (3 / 10) ⟨0, 0, 0, 0⟩ := by
    intro h
    exact absurd h.2 (lt_irrefl 0)
  have m4 : ¬ maskAt .euclidean ⟨0, 0, 0⟩ (3 / 10) ⟨6, 145, 15, 255⟩ := by
    intro h
    have h1 := h.1
    rw [close_euclidean_def, euclideanClose_iff] at h1
    have h2 := h1.2
    norm_num [distSq, rgbOf] at h2
  have e1 : recolorPixel ⟨0, 0, 0⟩ ⟨6, 145, 15⟩ (3 / 10) .euclidean ⟨0, 0, 0, 255⟩ =
      (⟨6, 145, 15, 255⟩ : Pixel) := if_pos m1
  have e2 : recolorPixel ⟨0, 0, 0⟩ ⟨6, 145, 15⟩ (3 / 10) .euclidean ⟨255, 255, 255, 255⟩ =
      (⟨255, 255, 255, 255⟩ : Pixel) := if_neg m2
  have e3 : recolorPixel ⟨0, 0, 0⟩ ⟨6, 145, 15⟩ (3 / 10) .euclidean ⟨0, 0, 0, 0⟩ =
      (⟨0, 0, 0, 0⟩ : Pixel) := if_neg m3
  have e4 : recolorPixel ⟨0, 0, 0⟩ ⟨6, 145, 15⟩ (3 / 10) .euclidean ⟨6, 145, 15, 255⟩ =
      (⟨6, 145, 15, 255⟩ : Pixel) := if_neg m4
  refine ⟨?_, m1, m3, m4⟩
  simp only [recolor, List.map_cons, List.map_nil, e1, e2, e3, e4]

/-- C7 counterexample: for the input path in.jpg the default output path
returned is in_converted.png; the input extension .jpg is not kept. -/
theorem C7_counterexample :
    (convert_png_color [("in.jpg", .rgba [])] "in.jpg" none ⟨0, 0, 0⟩ ⟨6, 145, 15⟩ 1
        "euclidean").2 = .ok "in_converted.png" ∧
      ("in_converted.png" : String) ≠ "in_converted.jpg" :=
  ⟨by decide, by decide⟩

/-- C7 amended: with no output path, the result is written to
`stem_converted.png` where `stem` is the input path without its extension
(the suffix is always `.png`, whatever the input extension); the write
shadows any existing file at that path, and the output path is returned. -/
theorem C7_default_output (fs : FileSys) (input : String) (im : SrcImage)
    (src tgt : Color) (tol : ℚ) (metric : String) (m : Metric)
    (hin : readFile fs input = some im) (hm : metricOfString metric = some m) :
    convert_png_color fs input none src tgt tol metric =
      (writeFile fs ((splitext input).1 ++ "_converted.png")
        (.rgba (recolor src tgt tol m (toRGBA im))),
       .ok ((splitext input).1 ++ "_converted.png")) ∧
    ∀ im2 : SrcImage, readFile (writeFile fs ((splitext input).1 ++ "_converted.png") im2)
        ((splitext input).1 ++ "_converted.png") = some im2 := by
  constructor
  · simp only [convert_png_color, hin, hm]
  · intro im2
    simp [readFile, writeFile, List.lookup]

/-- C7 witness: a concrete default-output conversion. -/
theorem C7_default_output_witness :
    convert_png_color [("a.png", SrcImage.rgba [])] "a.png" none ⟨0, 0, 0⟩ ⟨1, 2, 3⟩ 1
        "channel" =
      (writeFile [("a.png", SrcImage.rgba [])] "a_converted.png"
        (.rgba (recolor ⟨0, 0, 0⟩ ⟨1, 2, 3⟩ 1 .channel (toRGBA (SrcImage.rgba [])))),
       .ok "a_converted.png") :=
  (C7_default_output [("a.png", SrcImage.rgba [])] "a.png" (SrcImage.rgba []) ⟨0, 0, 0⟩
      ⟨1, 2, 3⟩ 1 "channel" .channel (by decide) (by decide)).1

/-- C8: the full contract of parse_color: the stated concrete examples; a
string that strips to 6 hex digits always parses as hex; otherwise the
token path is taken; a format error occurs exactly when the string is
neither hex nor three tokens; a range error occurs exactly when there are
three tokens and one is a non-integer or out of `[0, 255]`. -/
theorem C8_parse_color_contract :
    (parse_color "#06910F" = .ok ⟨6, 145, 15⟩ ∧
     parse_color "6,145,15" = .ok ⟨6, 145, 15⟩ ∧
     parse_color "12,12,12" = .ok ⟨12, 12, 12⟩ ∧
     parse_color "300,0,0" = .error .invalidColorRange ∧
     parse_color "1,2" = .error .invalidColorFormat) ∧
    (∀ s : String, isHex6 (prepColor s) = true → parse_color s = .ok (hexColor (prepColor s))) ∧
    (∀ s : String, isHex6 (prepColor s) = false →
        parse_color s = parseTokens (tokensOf (prepColor s))) ∧
    (∀ s : String, parse_color s = .error .invalidColorFormat ↔
        isHex6 (prepColor s) = false ∧ (tokensOf (prepColor s)).length ≠ 3) ∧
    (∀ s : String, parse_color s = .error .invalidColorRange ↔
        isHex6 (prepColor s) = false ∧
        ∃ p0 p1 p2, tokensOf (prepColor s) = [p0, p1, p2] ∧
          (pyInt? p0 = none ∨ pyInt? p1 = none ∨ pyInt? p2 = none ∨
           (∃ v, pyInt? p0 = some v ∧ (v < 0 ∨ 255 < v)) ∨
           (∃ v, pyInt? p1 = some v ∧ (v < 0 ∨ 255 < v)) ∨
           (∃ v, pyInt? p2 = some v ∧ (v < 0 ∨ 255 < v)))) := by
  refine ⟨⟨by decide, by decide, by decide, by decide, by decide⟩, ?_, ?_, ?_, ?_⟩
  · intro s h
    simp [parse_color, h]
  · intro s h
    simp [parse_color, h]
  · intro s
    by_cases h : isHex6 (prepColor s)
    · simp [parse_color, h]
    · simp only [Bool.not_eq_true] at h
      simp [parse_color, h, parseTokens_format_iff]
  · intro s
    by_cases h : isHex6 (prepColor s)
    · simp [parse_color, h]
    · simp only [Bool.not_eq_true] at h
      simp [parse_color, h, parseTokens_range_iff]

/-- C8 witness: the hex branch applied to a fresh concrete string. -/
theorem C8_parse_color_contract_witness :
    parse_color "A1B2C3" = .ok ⟨161, 178, 195⟩ :=
  C8_parse_color_contract.2.1 "A1B2C3" (by decide)

/-- C9: a missing input file gives fileNotFound (whatever the metric), a
present input with a metric outside the closed two-string set gives
unsupportedMetric, and the metric dispatch fails exactly outside that
set. -/
theorem C9_error_conditions (fs : FileSys) (input : String) (out? : Option String)
    (src tgt : Color) (tol : ℚ) (metric : String) :
    (readFile fs input = none →
       convert_png_color fs input out? src tgt tol metric = (fs, .error .fileNotFound)) ∧
    (∀ im, readFile fs input = some im → metricOfString metric = none →
       convert_png_color fs input out? src tgt tol metric =
         (fs, .error .unsupportedMetric)) ∧
    (∀ ms : String, metricOfString ms = none ↔ ms ≠ "euclidean" ∧ ms ≠ "channel") := by
  refine ⟨?_, ?_, ?_⟩
  · intro h
    simp [convert_png_color, h]
  · intro im h hm
    simp [convert_png_color, h, hm]
  · intro ms
    unfold metricOfString
    split_ifs with h1 h2
    · simp [h1]
    · simp [h2]
    · simp [h1, h2]

/-- C9 witness: a missing input raises fileNotFound even with a bogus
metric string. -/
theorem C9_error_conditions_witness :
    convert_png_color [] "missing.png" none ⟨0, 0, 0⟩ ⟨1, 2, 3⟩ 1 "bogus" =
      ([], .error .fileNotFound) :=
  (C9_error_conditions [] "missing.png" none ⟨0, 0, 0⟩ ⟨1, 2, 3⟩ 1 "bogus").1 (by decide)

/-- C10: whenever convert_png_color raises one of its own errors, the file
system is returned untouched (no output is written); a missing input gives
fileNotFound whatever the metric; an invalid metric is only reported when
the input has been found and loaded. -/
theorem C10_error_leaves_fs (fs : FileSys) (input : String) (out? : Option String)
    (src tgt : Color) (tol : ℚ) (metric : String) :
    (∀ e, (convert_png_color fs input out? src tgt tol metric).2 = .error e →
       (convert_png_color fs input out? src tgt tol metric).1 = fs) ∧
    (readFile fs input = none →
       convert_png_color fs input out? src tgt tol metric = (fs, .error .fileNotFound)) ∧
    (∀ im, readFile fs input = some im → metricOfString metric = none →
       convert_png_color fs input out? src tgt tol metric =
         (fs, .error .unsupportedMetric)) := by
  refine ⟨?_, ?_, ?_⟩
  · intro e he
    rcases hin : readFile fs input with _ | im
    · simp [convert_png_color, hin]
    · rcases hm : metricOfString metric with _ | m
      · simp [convert_png_color, hin, hm]
      · exfalso
        simp [convert_png_color, hin, hm] at he
  · intro h
    simp [convert_png_color, h]
  · intro im h hm
    simp [convert_png_color, h, hm]

/-- C10 witness: an unsupported metric on an existing input leaves the
file system unchanged. -/
theorem C10_error_leaves_fs_witness :
    (convert_png_color [("x.png", SrcImage.rgba [])] "x.png" none ⟨0, 0, 0⟩ ⟨1, 2, 3⟩ 1
        "bogus").1 = [("x.png", SrcImage.rgba [])] :=
  (C10_error_leaves_fs [("x.png", SrcImage.rgba [])] "x.png" none ⟨0, 0, 0⟩ ⟨1, 2, 3⟩ 1
      "bogus").1 .unsupportedMetric (by decide)

end PngTools
